import Mathlib

/-!
Verification of the PF2e AI Combat Assistant's suggestion-resolution core
(`src/scripts/main.js`): the turn state machine, the cost arbiter, the
suggestion text parser, the action resolver and the prerequisite validator.

JavaScript strings are modelled as `List Char` (all the strings involved are
ASCII); JavaScript numbers flowing through the cost pipeline are integers and
are modelled as `Int`; `null`/`undefined` results are modelled with `Option`.
Each definition names the source function it embeds.
-/

/-- Characters of a string literal (shorthand used to write JS string
constants). -/
def lc (s : String) : List Char := s.toList

/-- ASCII lower-casing of one character, as `String.prototype.toLowerCase`
acts on the ASCII range used by the module's names and labels. -/
def lowerChar (c : Char) : Char :=
  if 65 ≤ c.toNat ∧ c.toNat ≤ 90 then Char.ofNat (c.toNat + 32) else c

/-- Model of `s.toLowerCase()` on an ASCII string. -/
def lower (s : List Char) : List Char := s.map lowerChar

/-- Whitespace class: the ASCII part of JavaScript's `\s`. -/
def isWs (c : Char) : Bool :=
  c = ' ' ∨ c = '\t' ∨ c = '\n' ∨ c = '\r' ∨ c = '\x0c' ∨ c = '\x0b'

/-- Model of `String.prototype.trimStart`. -/
def trimL (s : List Char) : List Char := s.dropWhile isWs

/-- Model of `String.prototype.trimEnd`. -/
def trimR (s : List Char) : List Char := (s.reverse.dropWhile isWs).reverse

/-- Model of `String.prototype.trim`. -/
def trim (s : List Char) : List Char := trimR (trimL s)

/-- Numeric value of a digit run (the digits of a base-10 literal). -/
def digitsVal (ds : List Char) : Nat :=
  ds.foldl (fun a c => a * 10 + (c.toNat - 48)) 0

/-- Model of `parseInt(s, 10)` on a string: skip leading whitespace, read an optional
sign and then a leading digit run; `none` models `NaN`. -/
def jsParseInt (s : List Char) : Option Int :=
  let t := trimL s
  let core : List Char → Option Int := fun u =>
    let ds := u.takeWhile Char.isDigit
    if ds = [] then none else some (digitsVal ds)
  match t with
  | '+' :: u => core u
  | '-' :: u => (core u).map (fun n => -n)
  | u => core u

/-- Does `needle` occur as a contiguous substring of `hay`
(`String.prototype.includes`)? -/
def containsSeq (needle hay : List Char) : Bool :=
  match hay with
  | [] => List.isPrefixOf needle []
  | _ :: t => List.isPrefixOf needle hay || containsSeq needle t

/- ### Cost vocabulary

`determineAuthoritativeCost` receives, for the catalog cost, exactly the
values `identifySuggestionTypeAndCost` can store in `actualActionCost`
(`null`, a number, or one of the strings `'R'`, `'F'`, `"m to n"` produced by
`parseActionCostValue`), and for the LLM cost the values `parseLLMSuggestion`
can produce (a number or `'R'`/`'F'`).  `JsCost` is the union of those JS
values, with each string form kept as its own constructor. -/
inductive JsCost where
  | null
  | num (n : Int)
  | rstr
  | fstr
  | range (m k : Nat)
  deriving DecidableEq, Repr

/-- Model of `typeof v === 'string'` on a `JsCost` value (`'R'`, `'F'` and `"m to n"`
are the string forms). -/
def JsCost.isStr : JsCost → Bool
  | .rstr => true
  | .fstr => true
  | .range _ _ => true
  | _ => false

/-- Model of `v === 'R'` (strict equality, so false on every non-string). -/
def JsCost.isR : JsCost → Bool
  | .rstr => true
  | _ => false

/-- Model of `v === 'F'`. -/
def JsCost.isF : JsCost → Bool
  | .fstr => true
  | _ => false

/-- Model of `typeof v === 'string' && v.includes(' to ')`: only the range string
`"m to n"` contains `" to "`. -/
def JsCost.includesToSep : JsCost → Bool
  | .range _ _ => true
  | _ => false

/-- Model of `parseInt(v, 10)`: a number converts to itself, `parseInt('R'/'F')` is
`NaN`, `parseInt("m to n")` reads the leading digits `m`, and
`parseInt(null)` is `NaN`. -/
def JsCost.jsParseIntOf : JsCost → Option Int
  | .null => none
  | .num n => some n
  | .rstr => none
  | .fstr => none
  | .range m _ => some (m : Int)

/-- Model of `v.match(/^(\d+)\s+to/)?.[1]` on the string forms: the minimum of a range
string, `none` for `'R'`/`'F'`. -/
def JsCost.minOfRangeStr : JsCost → Option Nat
  | .range m _ => some m
  | _ => none

/-- Model of `isNaN(p) ? none : (1 ≤ p ∧ p ≤ 3 ? some p : none)` — the repeated
"valid numeric LLM cost" test `!isNaN(n) && n >= 1 && n <= 3`. -/
def validNumeric (p : Option Int) : Option Int :=
  match p with
  | some n => if 1 ≤ n ∧ n ≤ 3 then some n else none
  | none => none

/-- The `identifyResult` fields destructured by `determineAuthoritativeCost`:
`{ actualActionCost, costSource, isCombo }`. -/
structure IdentifyCost where
  actualActionCost : JsCost
  costSource : List Char
  isCombo : Bool
  deriving DecidableEq, Repr

/-- Model of `determineAuthoritativeCost(identifyResult, llmCost)` (main.js 617–689):
reconciles the catalog-derived cost with the LLM-claimed cost.  Combo
suggestions trust a valid LLM cost; a variable ("m to n") catalog cost is
resolved by a valid numeric LLM cost, else its minimum; a concrete numeric
catalog cost not sourced from the LLM wins; otherwise a valid LLM cost is
used; the final fallback is `1`. -/
def determineAuthoritativeCost (identifyResult : IdentifyCost)
    (llmCost : JsCost) : JsCost :=
  let actualActionCost := identifyResult.actualActionCost
  let costSource := identifyResult.costSource
  let isCombo := identifyResult.isCombo
  if isCombo then
    if llmCost.isR then .rstr
    else if llmCost.isF then .fstr
    else match validNumeric llmCost.jsParseIntOf with
    | some n => .num n
    | none =>
      if actualActionCost ≠ .null ∧ actualActionCost.isStr = false then
        actualActionCost
      else .num 1
  else if actualActionCost.isStr ∧ actualActionCost.includesToSep then
    if llmCost.isR then .num 1
    else if llmCost.isF then .num 1
    else match validNumeric llmCost.jsParseIntOf with
    | some n => .num n
    | none =>
      match actualActionCost.minOfRangeStr with
      | some m => .num (m : Int)
      | none => .num 1
  else if actualActionCost ≠ .null ∧ actualActionCost.isStr = false ∧
      costSource ≠ lc "LLM" then
    actualActionCost
  else if llmCost.isR then .rstr
  else if llmCost.isF then .fstr
  else match validNumeric llmCost.jsParseIntOf with
  | some n => .num n
  | none => .num 1

/-- The catalog-cost values `identifySuggestionTypeAndCost` can actually hand
to the arbiter: `null`, `'R'`, `'F'`, a numeric cost in `0..3` (from
`parseActionCostValue`'s glyph/numeric branches or the strike/consumable
defaults), or a range string with `1 ≤ m ≤ k ≤ 3`. -/
def producibleCatalogCost : JsCost → Prop
  | .null => True
  | .num n => 0 ≤ n ∧ n ≤ 3
  | .rstr => True
  | .fstr => True
  | .range m k => 1 ≤ m ∧ m ≤ k ∧ k ≤ 3

instance : DecidablePred producibleCatalogCost := by
  intro c; cases c <;> simp [producibleCatalogCost] <;> infer_instance

/-- The set of outputs claimed for the arbiter: `Actions(1..3)`, `'R'` or
`'F'` — never `null`, never a range, never a number outside `1..3`. -/
def claimedConcreteCost (c : JsCost) : Prop :=
  (∃ n : Int, c = .num n ∧ 1 ≤ n ∧ n ≤ 3) ∨ c = .rstr ∨ c = .fstr

instance : DecidablePred claimedConcreteCost := by
  intro c
  cases c with
  | num n =>
    refine decidable_of_iff (1 ≤ n ∧ n ≤ 3) ?_
    simp [claimedConcreteCost]
  | null => exact .isFalse (by simp [claimedConcreteCost])
  | rstr => exact .isTrue (by simp [claimedConcreteCost])
  | fstr => exact .isTrue (by simp [claimedConcreteCost])
  | range m k => exact .isFalse (by simp [claimedConcreteCost])

/-- C6: for a non-combo resolution whose catalog cost is a concrete number
(not a range string) from a source other than the LLM,
`determineAuthoritativeCost` returns that catalog cost unchanged, whatever
the LLM claimed. -/
theorem C6_catalog_concrete_cost_wins (n : Int) (src : List Char)
    (llm : JsCost) (hsrc : src ≠ lc "LLM") :
    determineAuthoritativeCost ⟨.num n, src, false⟩ llm = .num n := by
  simp [determineAuthoritativeCost, JsCost.isStr, JsCost.includesToSep, hsrc]

/-- Witness for C6 at the spec's own example: catalog `Actions(2)`
(item-sourced), LLM `Actions(1)` arbitrates to `Actions(2)`. -/
theorem C6_catalog_concrete_cost_wins_witness :
    lc "Action/Feat/Spell Item" ≠ lc "LLM" ∧
      determineAuthoritativeCost
        ⟨.num 2, lc "Action/Feat/Spell Item", false⟩ (.num 1) = .num 2 :=
  ⟨by decide, C6_catalog_concrete_cost_wins 2 _ (.num 1) (by decide)⟩

/-- C5 counterexample: `parseActionCostValue` can yield the numeric cost `0`
(its numeric branch accepts `0..3`), and the non-combo item-sourced branch of
`determineAuthoritativeCost` returns that `0` unchanged — a value outside
`Actions(1..3) | 'R' | 'F'`, contradicting the claim that the arbiter's
output is always in that set. -/
theorem C5_counterexample :
    determineAuthoritativeCost
        ⟨.num 0, lc "Action/Feat/Spell Item", false⟩ (.num 1) = .num 0 ∧
      ¬ claimedConcreteCost
        (determineAuthoritativeCost
          ⟨.num 0, lc "Action/Feat/Spell Item", false⟩ (.num 1)) := by
  constructor
  · decide
  · decide

set_option maxHeartbeats 1600000 in
/-- C5 (amended): on every catalog cost the resolver can produce, the
arbiter's output is one concrete value — a number in `0..3` (zero included),
`'R'` or `'F'`; it is never `null` and never a range value. -/
theorem C5_arbiter_output_concrete (ic : IdentifyCost) (llm : JsCost)
    (h : producibleCatalogCost ic.actualActionCost) :
    (∃ n : Int, determineAuthoritativeCost ic llm = .num n ∧ 0 ≤ n ∧ n ≤ 3) ∨
      determineAuthoritativeCost ic llm = .rstr ∨
      determineAuthoritativeCost ic llm = .fstr := by
  obtain ⟨ac, src, combo⟩ := ic
  simp only [producibleCatalogCost] at h
  rcases ac <;> rcases llm <;> rcases combo <;>
    simp only [determineAuthoritativeCost, JsCost.isR, JsCost.isF,
      JsCost.isStr, JsCost.includesToSep, JsCost.jsParseIntOf, validNumeric,
      JsCost.minOfRangeStr] <;>
    repeat' split
  all_goals
    first
      | exact Or.inr (Or.inl rfl)
      | exact Or.inr (Or.inr rfl)
      | (refine Or.inl ⟨_, rfl, ?_⟩; (try simp_all) <;> omega)
      | simp_all

/-- Witness for C5's amended theorem at a concrete producible input. -/
theorem C5_arbiter_output_concrete_witness :
    producibleCatalogCost (JsCost.range 1 3) ∧
      ((∃ n : Int,
          determineAuthoritativeCost
            ⟨.range 1 3, lc "Action/Feat/Spell Item", false⟩ (.num 2) =
              .num n ∧ 0 ≤ n ∧ n ≤ 3) ∨
        determineAuthoritativeCost
          ⟨.range 1 3, lc "Action/Feat/Spell Item", false⟩ (.num 2) = .rstr ∨
        determineAuthoritativeCost
          ⟨.range 1 3, lc "Action/Feat/Spell Item", false⟩ (.num 2) = .fstr) :=
  ⟨by decide,
    C5_arbiter_output_concrete ⟨.range 1 3, lc "Action/Feat/Spell Item", false⟩
      (.num 2) (by decide)⟩

/- ### Turn state machine -/

/-- The per-actor turn state owned by the turn state machine (the
`TURN_STATE` flag): remaining actions, the current MAP penalty value, the
history of confirmed actions, the conditions recorded at turn start and the
user's manual notes. -/
structure TurnState where
  actionsRemaining : Int
  currentMAP : Nat
  actionsTakenDescriptions : List (List Char)
  stunnedValueAtStart : Int
  slowedValueAtStart : Int
  manualNotes : List Char
  deriving DecidableEq, Repr

/-- The turn state created when AI control is accepted / when
`requestNextAISuggestion` starts a fresh turn (main.js 979–984 and
2181–2192): 3 actions, MAP 0, empty history. -/
def initTurnState (manualNotes : List Char) : TurnState :=
  { actionsRemaining := 3
    currentMAP := 0
    actionsTakenDescriptions := []
    stunnedValueAtStart := 0
    slowedValueAtStart := 0
    manualNotes := manualNotes }

/-- One entry of `gameState.self.conditionsEffects`: a condition name and its
optional numeric value. -/
structure ConditionEffect where
  name : List Char
  value : Option Int
  deriving DecidableEq, Repr

/-- Model of `conditions.find(c => c.name.toLowerCase().startsWith(pre))?.value ?? 0`
(main.js 2322–2325). -/
def condValueStartsWith (pre : List Char) (conds : List ConditionEffect) :
    Int :=
  match conds.find? (fun c => List.isPrefixOf pre (lower c.name)) with
  | some c => c.value.getD 0
  | none => 0

/-- The start-of-turn action recalculation (main.js 2319–2331):
`Math.max(0, 3 - Math.max(stunnedValue, slowedValue))`. -/
def calculatedStartActions (conds : List ConditionEffect) : Int :=
  let currentStunnedValue := condValueStartsWith (lc "stunned") conds
  let currentSlowedValue := condValueStartsWith (lc "slowed") conds
  max 0 (3 - max currentStunnedValue currentSlowedValue)

/-- Applying the start-of-turn recalculation to the turn state
(main.js 2336–2338). -/
def applyStartRecalc (ts : TurnState) (conds : List ConditionEffect) :
    TurnState :=
  { ts with
    actionsRemaining := calculatedStartActions conds
    stunnedValueAtStart := condValueStartsWith (lc "stunned") conds
    slowedValueAtStart := condValueStartsWith (lc "slowed") conds }

/-- What the first resolution of a turn does after recalculating actions
(main.js 2342–2404): with 0 actions it posts the zero-action message, clears
the AI flags and returns before any LLM call; otherwise it proceeds to
request a suggestion with the computed count. -/
inductive TurnStartOutcome where
  | zeroActionEnd
  | requestSuggestion (actionsRemaining : Int)
  deriving DecidableEq, Repr

/-- First-snapshot step of `requestNextAISuggestion`: recalculate, then
branch on `turnState.actionsRemaining === 0`. -/
def firstSnapshotStep (conds : List ConditionEffect) : TurnStartOutcome :=
  let a := calculatedStartActions conds
  if a = 0 then .zeroActionEnd else .requestSuggestion a

/-- Model of `_updateMAPBasedOnTrait` (main.js 718–765), reduced to its state
transition: no change without the `attack` trait; otherwise
`0 → 4/5 → 8/10 → 8/10` depending on the `agile` trait. -/
def updateMAPBasedOnTrait (actionTraits : List (List Char))
    (currentMAP : Nat) : Nat :=
  if lc "attack" ∈ actionTraits then
    let isAgile := lc "agile" ∈ actionTraits
    let penaltyIncrement := if isAgile then 4 else 5
    if currentMAP = 0 then penaltyIncrement
    else if currentMAP = 4 ∨ currentMAP = 5 then (if isAgile then 8 else 10)
    else (if isAgile then 8 else 10)
  else currentMAP

/-- The MAP flag write performed after a confirmed action (main.js 1225,
718–765) as a state transition. -/
def applyMAPTrait (ts : TurnState) (actionTraits : List (List Char)) :
    TurnState :=
  { ts with currentMAP := updateMAPBasedOnTrait actionTraits ts.currentMAP }

/-- Model of `_onConfirmActionClick`'s state mutation (main.js 1141–1225): reject an
invalid or unaffordable cost without touching the state (`isNaN`, negative,
or above `actionsRemaining`); otherwise deduct `max(0, remaining - cost)`,
append the action to the history, clear the manual notes and update MAP from
the identified traits. -/
def confirmAction (ts : TurnState) (actionCostForValidation : Option Int)
    (identifiedTraits : List (List Char)) (cleanedActionDesc : List Char) :
    TurnState :=
  match actionCostForValidation with
  | none => ts
  | some c =>
    if c < 0 ∨ ts.actionsRemaining < c then ts
    else
      let ts1 := { ts with
        actionsRemaining := max 0 (ts.actionsRemaining - c)
        actionsTakenDescriptions :=
          ts.actionsTakenDescriptions ++ [cleanedActionDesc]
        manualNotes := [] }
      applyMAPTrait ts1 identifiedTraits

/-- Model of `_onManualMAPAdjust` (main.js 2099–2148): an invalid or out-of-set value
is rejected without mutation; a valid value overwrites `currentMAP`. -/
def manualMAPAdjust (ts : TurnState) (mapValue : Option Int) : TurnState :=
  match mapValue with
  | none => ts
  | some v =>
    if v = 0 ∨ v = 4 ∨ v = 5 ∨ v = 8 ∨ v = 10 then
      { ts with currentMAP := v.toNat }
    else ts

/-- The MAP values the spec allows. -/
def mapValues : List Nat := [0, 4, 5, 8, 10]

/-- The invariant of claim C2: actions never negative, MAP in
`{0,4,5,8,10}`. -/
def TurnInv (ts : TurnState) : Prop :=
  0 ≤ ts.actionsRemaining ∧ ts.currentMAP ∈ mapValues

instance : DecidablePred TurnInv := by
  intro ts; unfold TurnInv; infer_instance

/-- Lemma: `updateMAPBasedOnTrait` keeps MAP inside `{0,4,5,8,10}`. -/
theorem updateMAP_mem_mapValues (tr : List (List Char)) (m : Nat)
    (hm : m ∈ mapValues) : updateMAPBasedOnTrait tr m ∈ mapValues := by
  unfold updateMAPBasedOnTrait
  split_ifs <;> simp_all [mapValues] <;> tauto

/-- C2: every state-mutating operation of the turn state machine —
initialization, start-of-turn recalculation, confirmation with cost
deduction, the automatic MAP advance, and the manual MAP override — leaves
`actionsRemaining` non-negative and `currentMAP` in `{0,4,5,8,10}`. -/
theorem C2_turn_state_invariants :
    (∀ notes, TurnInv (initTurnState notes)) ∧
      (∀ ts conds, TurnInv ts → TurnInv (applyStartRecalc ts conds)) ∧
      (∀ ts c tr d, TurnInv ts → TurnInv (confirmAction ts c tr d)) ∧
      (∀ ts tr, TurnInv ts → TurnInv (applyMAPTrait ts tr)) ∧
      (∀ ts v, TurnInv ts → TurnInv (manualMAPAdjust ts v)) := by
  refine ⟨?_, ?_, ?_, ?_, ?_⟩
  · intro notes
    exact ⟨by norm_num [initTurnState], by simp [initTurnState, mapValues]⟩
  · intro ts conds h
    exact ⟨le_max_left _ _, h.2⟩
  · intro ts c tr d h
    unfold confirmAction
    rcases c with _ | c
    · exact h
    dsimp only
    split_ifs with hg
    · exact h
    · exact ⟨le_max_left _ _, updateMAP_mem_mapValues _ _ h.2⟩
  · intro ts tr h
    exact ⟨h.1, updateMAP_mem_mapValues _ _ h.2⟩
  · intro ts v h
    unfold manualMAPAdjust
    rcases v with _ | v
    · exact h
    dsimp only
    split_ifs with hv
    · refine ⟨h.1, ?_⟩
      rcases hv with h0 | h4 | h5 | h8 | h10 <;> subst_vars <;>
        simp [mapValues]
    · exact h

/-- Witness for C2 at a concrete state and confirmation. -/
theorem C2_turn_state_invariants_witness :
    TurnInv (initTurnState []) ∧
      TurnInv
        (confirmAction (initTurnState []) (some 2) [lc "attack"]
          (lc "Claw")) :=
  ⟨C2_turn_state_invariants.1 [],
    C2_turn_state_invariants.2.2.1 (initTurnState []) (some 2) [lc "attack"]
      (lc "Claw") (C2_turn_state_invariants.1 [])⟩

/-- C3: on the first resolution of a turn, the remaining actions are
`max(0, 3 - max(stunned, slowed))` read from the snapshot's conditions
(stunned 2 / slowed 0 gives 1, stunned 4 gives 0), and a computed value of 0
ends the turn at once, before any LLM suggestion is requested. -/
theorem C3_first_snapshot_start_actions :
    (∀ s l : Int,
        calculatedStartActions
            [⟨lc "Stunned", some s⟩, ⟨lc "Slowed", some l⟩] =
          max 0 (3 - max s l)) ∧
      calculatedStartActions [⟨lc "Stunned", some 2⟩] = 1 ∧
      calculatedStartActions [⟨lc "Stunned", some 4⟩] = 0 ∧
      (∀ conds, calculatedStartActions conds = 0 →
        firstSnapshotStep conds = .zeroActionEnd) ∧
      (∀ conds, calculatedStartActions conds ≠ 0 →
        firstSnapshotStep conds =
          .requestSuggestion (calculatedStartActions conds)) := by
  refine ⟨fun s l => rfl, by decide, by decide, ?_, ?_⟩
  · intro conds h
    simp [firstSnapshotStep, h]
  · intro conds h
    simp [firstSnapshotStep, h]

/-- Witness for C3: stunned 4 computes 0 actions and the machine ends the
turn without requesting a suggestion. -/
theorem C3_first_snapshot_start_actions_witness :
    calculatedStartActions [⟨lc "Stunned", some 4⟩] = 0 ∧
      firstSnapshotStep [⟨lc "Stunned", some 4⟩] = .zeroActionEnd :=
  ⟨by decide,
    C3_first_snapshot_start_actions.2.2.2.1 [⟨lc "Stunned", some 4⟩]
      (by decide)⟩

/-- MAP after a sequence of confirmed actions, starting from 0
(successive applications of `_updateMAPBasedOnTrait`). -/
def mapAfterConfirms (traitLists : List (List (List Char))) : Nat :=
  traitLists.foldl (fun m tr => updateMAPBasedOnTrait tr m) 0

/-- An attack keeps MAP non-zero. -/
theorem updateMAP_attack_ne_zero (tr : List (List Char)) (m : Nat)
    (h : lc "attack" ∈ tr) : updateMAPBasedOnTrait tr m ≠ 0 := by
  unfold updateMAPBasedOnTrait
  split_ifs <;> simp_all <;> split <;> simp

/-- From any non-zero MAP, an attack saturates at 8 (agile) / 10
(non-agile). -/
theorem updateMAP_attack_saturates (tr : List (List Char)) (m : Nat)
    (h : lc "attack" ∈ tr) (hm : m ≠ 0) :
    updateMAPBasedOnTrait tr m = if lc "agile" ∈ tr then 8 else 10 := by
  unfold updateMAPBasedOnTrait
  split_ifs <;> simp_all

/-- Folding attacks from a non-zero MAP stays non-zero. -/
theorem foldl_updateMAP_ne_zero (ts : List (List (List Char))) (m : Nat)
    (h : ∀ t ∈ ts, lc "attack" ∈ t) (hm : m ≠ 0) :
    ts.foldl (fun m tr => updateMAPBasedOnTrait tr m) m ≠ 0 := by
  induction ts generalizing m with
  | nil => exact hm
  | cons t ts ih =>
    simp only [List.foldl_cons]
    exact ih _ (fun u hu => h u (List.mem_cons_of_mem _ hu))
      (updateMAP_attack_ne_zero _ _ (h t (List.mem_cons_self _ _)))

/-- C4: confirmed attacks advance MAP deterministically — the first attack
takes 0 to 4 (agile) or 5 (non-agile), every later attack of a sequence of
attacks yields 8 (agile) or 10 (non-agile), and a confirmed action without
the attack trait leaves MAP unchanged. -/
theorem C4_map_progression :
    (∀ tr, lc "attack" ∈ tr →
        mapAfterConfirms [tr] = if lc "agile" ∈ tr then 4 else 5) ∧
      (∀ trs tr, trs ≠ [] → (∀ t ∈ trs, lc "attack" ∈ t) →
        lc "attack" ∈ tr →
        mapAfterConfirms (trs ++ [tr]) =
          if lc "agile" ∈ tr then 8 else 10) ∧
      (∀ tr m, lc "attack" ∉ tr → updateMAPBasedOnTrait tr m = m) := by
  refine ⟨?_, ?_, ?_⟩
  · intro tr h
    simp only [mapAfterConfirms, List.foldl_cons, List.foldl_nil]
    unfold updateMAPBasedOnTrait
    simp [h]
  · intro trs tr hne hall h
    have hnz : mapAfterConfirms trs ≠ 0 := by
      match trs, hne with
      | t :: ts, _ =>
        simp only [mapAfterConfirms, List.foldl_cons]
        exact foldl_updateMAP_ne_zero ts _
          (fun u hu => hall u (List.mem_cons_of_mem _ hu))
          (updateMAP_attack_ne_zero _ _ (hall t (List.mem_cons_self _ _)))
    calc mapAfterConfirms (trs ++ [tr])
        = updateMAPBasedOnTrait tr (mapAfterConfirms trs) := by
          simp [mapAfterConfirms, List.foldl_append]
      _ = if lc "agile" ∈ tr then 8 else 10 :=
          updateMAP_attack_saturates _ _ h hnz
  · intro tr m h
    unfold updateMAPBasedOnTrait
    simp [h]

/-- Witness for C4: a non-agile attack then an agile attack gives MAP 8. -/
theorem C4_map_progression_witness :
    mapAfterConfirms [[lc "attack"], [lc "attack", lc "agile"]] = 8 := by
  have := C4_map_progression.2.1 [[lc "attack"]] [lc "attack", lc "agile"]
    (by decide) (by decide) (by decide)
  simpa using this

/- ### Cost-overrun validation (`requestNextAISuggestion`, main.js
2613–2628 and its catch handler 2906–2912) -/

/-- The numeric minimum used to validate the arbitrated cost against the
remaining actions (main.js 2614–2623): `'R'`/`'F'` count 0, a range counts
its parsed minimum, a number counts itself, anything unparseable counts 1. -/
def numericCostForValidation : JsCost → Int
  | .rstr => 0
  | .fstr => 0
  | .range m _ => (m : Int)
  | .num n => n
  | .null => 1

/-- Outcome of the critical cost validation: `costOverrunError` is the
`throw` at main.js 2627, caught at 2906–2912 where the error is surfaced via
`ui.notifications.error` and `clearAITurnFlags` unsets the `TURN_STATE`
flag; `presented` continues to the suggestion card with the state
untouched. -/
inductive SuggestionOutcome where
  | costOverrunError
  | presented (ts : TurnState)
  deriving DecidableEq, Repr

/-- The cost-overrun check (main.js 2626–2628). -/
def validateSuggestedCost (ts : TurnState) (authoritativeCost : JsCost) :
    SuggestionOutcome :=
  let n := numericCostForValidation authoritativeCost
  if 0 < n ∧ ts.actionsRemaining < n then .costOverrunError
  else .presented ts

/-- The `TURN_STATE` flag contents after the validation step: `none` when
the catch handler cleared the flags, unchanged otherwise. -/
def storedTurnStateAfterValidation (ts : TurnState)
    (authoritativeCost : JsCost) : Option TurnState :=
  match validateSuggestedCost ts authoritativeCost with
  | .costOverrunError => none
  | .presented t => some t

/-- A one-action-left turn state used as the concrete input below. -/
def oneActionState : TurnState :=
  { actionsRemaining := 1
    currentMAP := 0
    actionsTakenDescriptions := []
    stunnedValueAtStart := 0
    slowedValueAtStart := 0
    manualNotes := [] }

/-- C1 counterexample: with 1 action remaining and an arbitrated cost of 2,
the suggestion is rejected, but the turn state is *not* left untouched — the
catch handler clears the `TURN_STATE` flag (main.js 2910,
`clearAITurnFlags`), so the stored state afterwards is `none`, not the
original state. -/
theorem C1_counterexample :
    storedTurnStateAfterValidation oneActionState (.num 2) = none ∧
      storedTurnStateAfterValidation oneActionState (.num 2) ≠
        some oneActionState := by
  constructor
  · decide
  · decide

/-- C1 (amended): whenever the arbitrated cost's minimum numeric value is
positive and exceeds the remaining actions, the suggestion is rejected and
surfaced as a user-visible validation error and no deduction from
`actionsRemaining` occurs — but the turn state is cleared by the error
handler rather than left untouched. -/
theorem C1_cost_overrun_rejected (ts : TurnState) (c : JsCost)
    (hpos : 0 < numericCostForValidation c)
    (hover : ts.actionsRemaining < numericCostForValidation c) :
    validateSuggestedCost ts c = .costOverrunError ∧
      storedTurnStateAfterValidation ts c = none := by
  have h : validateSuggestedCost ts c = .costOverrunError := by
    unfold validateSuggestedCost
    simp [hpos, hover]
  exact ⟨h, by unfold storedTurnStateAfterValidation; rw [h]⟩

/-- Witness for C1's amended theorem. -/
theorem C1_cost_overrun_rejected_witness :
    validateSuggestedCost oneActionState (.num 2) = .costOverrunError ∧
      storedTurnStateAfterValidation oneActionState (.num 2) = none :=
  C1_cost_overrun_rejected oneActionState (.num 2) (by decide) (by decide)

/- ### Suggestion text parser (`parseLLMSuggestion`, main.js 5355–5446)

The labelled-block regexes of the primary phase are anchored at `(?:^|\n)`,
so both phases are modelled over the list of lines of the (trimmed,
hyphen-stripped) reply.  The primary phase's lazy dot-all captures, which run
from a label to the next labelled line, are modelled as the rest of the
label's line joined with the following lines up to the next labelled line. -/

/-- Model of `s.split('\n')`. -/
def splitLines (s : List Char) : List (List Char) :=
  match s with
  | [] => [[]]
  | c :: t =>
    if c = '\n' then [] :: splitLines t
    else
      match splitLines t with
      | l :: ls => (c :: l) :: ls
      | [] => [[c]]

/-- Model of `responseString.trim().replace(/^-\s*/, '')` (main.js 5367). -/
def preprocessReply (s : List Char) : List Char :=
  let t := trim s
  match t with
  | '-' :: u => trimL u
  | _ => t

/-- Case-insensitive prefix strip: `some rest` when `label` heads `s`. -/
def stripLabelCI (label s : List Char) : Option (List Char) :=
  if List.isPrefixOf (lower label) (lower s) then some (s.drop label.length)
  else none

/-- The per-line label pattern `/^\**LABEL\**\s*(...)/i` applied to the
trimmed line (main.js 5415–5419, and the `(?:^|\n)\s*\**LABEL\**\s*` prefix
of the block regexes at 5370–5374): the capture that follows the label. -/
def lineLabelCapture (label line : List Char) : Option (List Char) :=
  let t := trim line
  let t1 := t.dropWhile (· = '*')
  match stripLabelCI label t1 with
  | some r => some ((r.dropWhile (· = '*')).dropWhile isWs)
  | none => none

/-- The token captured by `(\d+|R|F)` after `COST:` (case-insensitive). -/
inductive CostTok where
  | digits (ds : List Char)
  | rTok
  | fTok
  deriving DecidableEq, Repr

/-- Model of `/^\**COST:\**\s*(\d+|R|F)(?:\s*action[s]?)?/i` on one line
(main.js 5372 and 5417). -/
def costLineCapture (line : List Char) : Option CostTok :=
  match lineLabelCapture (lc "COST:") line with
  | none => none
  | some r =>
    match r with
    | [] => none
    | c :: _ =>
      if c.isDigit then some (.digits (r.takeWhile Char.isDigit))
      else if c = 'R' ∨ c = 'r' then some .rTok
      else if c = 'F' ∨ c = 'f' then some .fTok
      else none

/-- Validation of a captured cost token (main.js 5380–5388 / 5423–5427):
`'R'`/`'F'` stand, a digit run must parse to `1..3`; otherwise the cost is
treated as absent. -/
def costTokValue : CostTok → Option JsCost
  | .rTok => some .rstr
  | .fTok => some .fstr
  | .digits ds =>
    let n := digitsVal ds
    if 1 ≤ n ∧ n ≤ 3 then some (.num (n : Int)) else none

/-- The validated cost a single line contributes. -/
def costValueOfLine (line : List Char) : Option JsCost :=
  match costLineCapture line with
  | some tok => costTokValue tok
  | none => none

/-- The parser's output `{description, target, cost, rationale,
narrative}`. -/
structure ParsedSuggestion where
  description : List Char
  target : List Char
  cost : JsCost
  rationale : Option (List Char)
  narrative : Option (List Char)
  deriving DecidableEq, Repr

/-- Accumulator of the line-by-line fallback loop (main.js 5406–5430). -/
structure FallbackAcc where
  action : Option (List Char)
  target : Option (List Char)
  rationale : Option (List Char)
  narrative : Option (List Char)
  cost : Option JsCost
  deriving DecidableEq, Repr

/-- Keep the first non-empty capture (`if (m?.[1] && !slot) slot =
m[1].trim()`). -/
def keepFirst (slot : Option (List Char)) (cap : Option (List Char)) :
    Option (List Char) :=
  match slot with
  | some _ => slot
  | none =>
    match cap with
    | some c => if c = [] then none else some (trim c)
    | none => none

/-- One iteration of the fallback loop (main.js 5413–5430). -/
def fallbackStep (acc : FallbackAcc) (line : List Char) : FallbackAcc :=
  { action := keepFirst acc.action (lineLabelCapture (lc "ACTION:") line)
    target := keepFirst acc.target (lineLabelCapture (lc "TARGET:") line)
    rationale :=
      keepFirst acc.rationale (lineLabelCapture (lc "Rationale:") line)
    narrative :=
      keepFirst acc.narrative (lineLabelCapture (lc "NARRATIVE:") line)
    cost :=
      match acc.cost with
      | some c => some c
      | none => costValueOfLine line }

/-- The whole fallback scan. -/
def fallbackScan (lines : List (List Char)) : FallbackAcc :=
  lines.foldl fallbackStep ⟨none, none, none, none, none⟩

/-- The fallback phase's result (main.js 5432–5441): with an action and a
target it succeeds, defaulting a missing/invalid cost to `Actions(1)`. -/
def fallbackParse (lines : List (List Char)) : Option ParsedSuggestion :=
  let acc := fallbackScan lines
  match acc.action, acc.target with
  | some a, some t =>
    match acc.cost with
    | some c =>
      some { description := a, target := t, cost := c,
             rationale := acc.rationale,
             narrative := some (acc.narrative.getD []) }
    | none =>
      some { description := a, target := t, cost := .num 1,
             rationale := acc.rationale,
             narrative := some (acc.narrative.getD []) }
  | _, _ => none

/-- First line whose trimmed text carries `label`; returns its capture and
the following lines. -/
def findLabelLine (label : List Char) :
    List (List Char) → Option (List Char × List (List Char))
  | [] => none
  | l :: ls =>
    match lineLabelCapture label l with
    | some cap => some (cap, ls)
    | none => findLabelLine label ls

/-- Does the line start (modulo whitespace and asterisks) with one of the
given labels — the block regexes' lookahead boundary? -/
def isAnyLabelLine (labels : List (List Char)) (line : List Char) : Bool :=
  labels.any (fun lab => (lineLabelCapture lab line).isSome)

/-- Join lines back with newlines. -/
def joinNL : List (List Char) → List Char
  | [] => []
  | [l] => l
  | l :: ls => l ++ '\n' :: joinNL ls

/-- A block regex's capture (main.js 5370–5374): from its label to the line
before the next stop label (or the end of the text). -/
def primaryCapture (label : List Char) (stopLabels : List (List Char))
    (lines : List (List Char)) : Option (List Char) :=
  match findLabelLine label lines with
  | none => none
  | some (cap, rest) =>
    let cont := rest.takeWhile (fun l => !(isAnyLabelLine stopLabels l))
    some (trimR (joinNL (cap :: cont)))

/-- First index (case-insensitive) of `needle` in `hay`. -/
def findCiIdx (needle hay : List Char) : Option Nat :=
  match hay with
  | [] => if needle = [] then some 0 else none
  | _ :: t =>
    if List.isPrefixOf (lower needle) (lower hay) then some 0
    else (findCiIdx needle t).map (· + 1)

/-- Model of `s.replace(/\**LABEL:.*$/i, '')` (main.js 5395–5398): cut from the
label's first occurrence, together with the asterisks just before it. -/
def stripLabelTail (lab s : List Char) : List Char :=
  match findCiIdx lab s with
  | none => s
  | some i =>
    let pre := s.take i
    pre.take (i - (pre.reverse.takeWhile (· = '*')).length)

/-- The cross-contamination cleanup chain followed by `.trim()`. -/
def cleanupCaptured (labels : List (List Char)) (s : List Char) :
    List Char :=
  trim (labels.foldl (fun acc lab => stripLabelTail lab acc) s)

/-- Model of `m?.[1]?.trim() || null` for the optional rationale/narrative
captures. -/
def optTrimmed (cap : Option (List Char)) : Option (List Char) :=
  match cap with
  | some c => if trim c = [] then none else some (trim c)
  | none => none

/-- The primary (block-regex) phase of `parseLLMSuggestion`
(main.js 5370–5402): it succeeds only when the `ACTION`, `TARGET` and `COST`
captures are all present and non-empty and the cost token validates. -/
def primaryParse (lines : List (List Char)) : Option ParsedSuggestion :=
  match primaryCapture (lc "ACTION:")
      [lc "TARGET:", lc "COST:", lc "Rationale:", lc "NARRATIVE:"] lines,
    primaryCapture (lc "TARGET:")
      [lc "COST:", lc "Rationale:", lc "NARRATIVE:"] lines,
    lines.findSome? costLineCapture with
  | some a, some t, some tok =>
    if a ≠ [] ∧ t ≠ [] then
      let parsedAction := trim a
      let parsedTarget := trim t
      match costTokValue tok with
      | some pc =>
        if parsedAction ≠ [] ∧ parsedTarget ≠ [] then
          some { description :=
                   cleanupCaptured [lc "TARGET:", lc "COST:",
                     lc "Rationale:", lc "NARRATIVE:"] parsedAction
                 target :=
                   cleanupCaptured [lc "COST:", lc "Rationale:",
                     lc "NARRATIVE:"] parsedTarget
                 cost := pc
                 rationale := optTrimmed (primaryCapture (lc "Rationale:")
                   [lc "ACTION:", lc "TARGET:", lc "COST:",
                     lc "NARRATIVE:"] lines)
                 narrative := optTrimmed (primaryCapture (lc "NARRATIVE:")
                   [] lines) }
        else none
      | none => none
    else none
  | _, _, _ => none

/-- Model of `parseLLMSuggestion` (main.js 5355–5446): primary block parse, then the
line-by-line fallback, `none` when both fail. -/
def parseLLMSuggestion (raw : List Char) : Option ParsedSuggestion :=
  let lines := splitLines (preprocessReply raw)
  match primaryParse lines with
  | some r => some r
  | none => fallbackParse lines

/-- If the fallback scan ends with no cost, no line contributed a valid
cost. -/
theorem foldl_fallback_cost_none (lines : List (List Char))
    (acc : FallbackAcc)
    (h : (List.foldl fallbackStep acc lines).cost = none) :
    acc.cost = none ∧ ∀ l ∈ lines, costValueOfLine l = none := by
  induction lines generalizing acc with
  | nil => exact ⟨h, by simp⟩
  | cons l ls ih =>
    simp only [List.foldl_cons] at h
    obtain ⟨hstep, hrest⟩ := ih _ h
    have hacc : acc.cost = none ∧ costValueOfLine l = none := by
      unfold fallbackStep at hstep
      cases h' : acc.cost with
      | some c => rw [h'] at hstep; simp at hstep
      | none => rw [h'] at hstep; simp at hstep; exact ⟨rfl, hstep⟩
    refine ⟨hacc.1, ?_⟩
    intro u hu
    rcases List.mem_cons.mp hu with h' | h'
    · exact h' ▸ hacc.2
    · exact hrest u h'

/-- A successful `findSome?` comes from a member line. -/
theorem findSome?_costLine_mem (lines : List (List Char)) (tok : CostTok)
    (h : lines.findSome? costLineCapture = some tok) :
    ∃ l ∈ lines, costLineCapture l = some tok := by
  induction lines with
  | nil => simp [List.findSome?] at h
  | cons l ls ih =>
    rw [List.findSome?_cons] at h
    cases h' : costLineCapture l with
    | some t =>
      rw [h'] at h
      simp only [Option.some.injEq] at h
      exact ⟨l, by simp, by rw [h', h]⟩
    | none =>
      rw [h'] at h
      obtain ⟨u, hu, hcap⟩ := ih h
      exact ⟨u, List.mem_cons_of_mem _ hu, hcap⟩

/-- When no line carries a valid cost, the primary phase cannot succeed. -/
theorem primaryParse_none (lines : List (List Char))
    (h : ∀ l ∈ lines, costValueOfLine l = none) :
    primaryParse lines = none := by
  unfold primaryParse
  cases primaryCapture (lc "ACTION:")
      [lc "TARGET:", lc "COST:", lc "Rationale:", lc "NARRATIVE:"] lines with
  | none => rfl
  | some a =>
    cases primaryCapture (lc "TARGET:")
        [lc "COST:", lc "Rationale:", lc "NARRATIVE:"] lines with
    | none => rfl
    | some t =>
      cases hc : lines.findSome? costLineCapture with
      | none => rfl
      | some tok =>
        obtain ⟨l, hl, hcap⟩ := findSome?_costLine_mem lines tok hc
        have htok : costTokValue tok = none := by
          have := h l hl
          unfold costValueOfLine at this
          rw [hcap] at this
          exact this
        dsimp only
        rw [htok]
        split_ifs <;> rfl

/-- C8: whenever the line-by-line fallback finds an ACTION line and a TARGET
line but no valid COST value (absent or out of `1..3`),
`parseLLMSuggestion` still returns a result, with cost defaulted to
`Actions(1)`. -/
theorem C8_fallback_default_cost (raw : List Char)
    (ha : (fallbackScan (splitLines (preprocessReply raw))).action ≠ none)
    (ht : (fallbackScan (splitLines (preprocessReply raw))).target ≠ none)
    (hc : (fallbackScan (splitLines (preprocessReply raw))).cost = none) :
    ∃ r, parseLLMSuggestion raw = some r ∧ r.cost = .num 1 := by
  have hall : ∀ l ∈ splitLines (preprocessReply raw),
      costValueOfLine l = none :=
    (foldl_fallback_cost_none _ ⟨none, none, none, none, none⟩
      (by simpa [fallbackScan] using hc)).2
  have hp : primaryParse (splitLines (preprocessReply raw)) = none :=
    primaryParse_none _ hall
  simp only [parseLLMSuggestion, hp]
  simp only [fallbackParse]
  obtain ⟨a, haa⟩ := Option.ne_none_iff_exists'.mp ha
  obtain ⟨t, hta⟩ := Option.ne_none_iff_exists'.mp ht
  rw [haa, hta, hc]
  exact ⟨_, rfl, rfl⟩

/-- Witness for C8 at the spec's example reply (no COST line at all). -/
theorem C8_fallback_default_cost_witness :
    (∃ r,
      parseLLMSuggestion (lc "ACTION: Stride\nTARGET: Self\n") = some r ∧
        r.cost = .num 1) :=
  C8_fallback_default_cost (lc "ACTION: Stride\nTARGET: Self\n")
    (by decide) (by decide) (by decide)

/- ### Action resolver (`identifySuggestionTypeAndCost`, main.js 5523–5936)

Descriptions are treated as single-line text (the parser's post-processing
replaces escaped newlines with spaces before resolution, main.js 2437). -/

/-- The character class `[\w\s'-]` of the leading-action-name regex. -/
def isNameChar (c : Char) : Bool :=
  c.isAlphanum ∨ c = '_' ∨ isWs c ∨ c = '\'' ∨ c = '-'

/-- Input cleaning of `identifySuggestionTypeAndCost` (main.js 5525–5535):
trim, drop a trailing `\s+a`, strip surrounding quotes, drop one trailing
punctuation mark, strip a leading `Cast|Activate|Use|Strike:?` verb. -/
def cleanDescription (description : List Char) : List Char :=
  let s1 := trim description
  let s2 :=
    match s1.reverse with
    | c :: rest =>
      if (c = 'a' ∨ c = 'A') ∧ (rest.head?.elim false isWs) then
        (rest.dropWhile isWs).reverse
      else s1
    | [] => s1
  let s3 := trim s2
  let s4 :=
    if 2 ≤ s3.length ∧
        ((s3.head? = some '"' ∧ s3.getLast? = some '"') ∨
          (s3.head? = some '\'' ∧ s3.getLast? = some '\'')) then
      (s3.drop 1).dropLast
    else s3
  let s5 :=
    let t := trimR s4
    match t.reverse with
    | c :: rest =>
      if c = '.' ∨ c = ',' ∨ c = ';' ∨ c = ':' then rest.reverse else s4
    | [] => s4
  let s6 := trim s5
  let verbs := [lc "Cast", lc "Activate", lc "Use", lc "Strike:", lc "Strike"]
  let stripped := verbs.findSome? (fun verb =>
    match stripLabelCI verb s6 with
    | some (c :: r) => if isWs c then some ((c :: r).dropWhile isWs) else none
    | some [] => none
    | none => none)
  trim (stripped.getD s6)

/-- The optional `(?:\s*\(.*?\))?` group of the leading-name regex: when the
remainder (after optional whitespace) opens a parenthesis that is closed
later, the group consumes through the first closing parenthesis. -/
def matchesParenGroup (u : List Char) : Option (List Char) :=
  match u.dropWhile isWs with
  | '(' :: w =>
    let seg := w.takeWhile (· ≠ ')')
    if seg.length < w.length then some (w.drop (seg.length + 1)) else none
  | _ => none

/-- The optional `(?:\s*,?\s+.*)?` group: the remainder is eaten when it
starts with whitespace, or with an (optionally space-preceded) comma that is
followed by whitespace. -/
def matchesTailGroup (u : List Char) : Bool :=
  match u with
  | [] => true
  | c :: _ =>
    if isWs c then true
    else
      match u.dropWhile isWs with
      | ',' :: d :: _ => isWs d
      | _ => false

/-- Can the rest of the description after a candidate name capture be matched
by `(?:\s*\(.*?\))?(?:\s*,?\s+.*)?$`? -/
def reContinuationOk (u : List Char) : Bool :=
  decide (u = []) ||
    (match matchesParenGroup u with
     | some rest => decide (rest = []) || matchesTailGroup rest
     | none => false) ||
    matchesTailGroup u

/-- The greedy, backtracking capture of
`/^([\w\s'-]+)(?:\s*\(.*?\))?(?:\s*,?\s+.*)?$/i` (main.js 5645): the longest
non-empty prefix of name characters whose continuation matches. -/
def bestNameSplit (s : List Char) : Option (List Char) :=
  let pmax := s.takeWhile isNameChar
  (List.range pmax.length).findSome? (fun i =>
    let k := pmax.length - i
    if reContinuationOk (s.drop k) then some (s.take k) else none)

/-- Model of `primaryActionName` (main.js 5645–5646): the trimmed regex capture, or
the whole cleaned description when the regex fails. -/
def primaryActionName (cleanedDescription : List Char) : List Char :=
  match bestNameSplit cleanedDescription with
  | some cap => trim cap
  | none => cleanedDescription

/-- One entry of the resolver's master item list (name, kind and the UUID
used as identity). -/
structure CatalogItem where
  name : List Char
  itemType : List Char
  uuid : Nat
  deriving DecidableEq, Repr

/-- A candidate occurrence recorded by the scan (main.js 5747–5770). -/
structure PotentialMatch where
  startIndex : Nat
  endIndex : Nat
  uuid : Nat
  itemName : List Char
  itemType : List Char
  nameLength : Nat
  deriving DecidableEq, Repr

/-- Model of `Map`-style upsert used by
`Array.from(new Map(list.map(i => [i.uuid, i])).values())`: an existing key
keeps its position and takes the new value, a new key is appended. -/
def upsertByUuid (acc : List CatalogItem) (it : CatalogItem) :
    List CatalogItem :=
  if acc.any (fun x => x.uuid = it.uuid) then
    acc.map (fun x => if x.uuid = it.uuid then it else x)
  else acc ++ [it]

/-- De-duplication of the master list (main.js 5632). -/
def dedupByUuid (l : List CatalogItem) : List CatalogItem :=
  l.foldl upsertByUuid []

/-- Stable insertion preserving original order among ties, as the (stable)
`Array.prototype.sort`: the new, originally-later element goes after every
element strictly preceding it. -/
def jsInsert (lt : α → α → Bool) (x : α) : List α → List α
  | [] => [x]
  | y :: ys => if lt y x then y :: jsInsert lt x ys else x :: y :: ys

/-- Model of `Array.prototype.sort(cmp)` with a consistent comparator, via `lt a b =
cmp a b < 0`. -/
def jsSortBy (lt : α → α → Bool) (l : List α) : List α :=
  l.foldr (jsInsert lt) []

/-- Model of `uniqueList.sort((a, b) => b.name.length - a.name.length)`
(main.js 5635). -/
def masterListOf (items : List CatalogItem) : List CatalogItem :=
  jsSortBy (fun a b => decide (b.name.length < a.name.length))
    (dedupByUuid items)

/-- The word-boundary class `[\s"',.:;+()[\]{}]` (main.js 5745/5762). -/
def wordBoundary (c : Char) : Bool :=
  isWs c ∨ c = '"' ∨ c = '\'' ∨ c = ',' ∨ c = '.' ∨ c = ':' ∨ c = ';' ∨
    c = '+' ∨ c = '(' ∨ c = ')' ∨ c = '[' ∨ c = ']' ∨ c = '\x7b' ∨
    c = '\x7d'

/-- Does `needle` occur in `hay` at position `i`? -/
def matchAt (needle hay : List Char) (i : Nat) : Bool :=
  List.isPrefixOf needle (hay.drop i)

/-- All the positions the `indexOf` loop visits (it advances by one past
each hit, so every occurrence is recorded). -/
def occurrencePositions (needle hay : List Char) : List Nat :=
  (List.range (hay.length + 1)).filter (matchAt needle hay)

/-- The primary-match test of the scan (main.js 5741–5754): the item name
equals or prefixes (followed by a space) the primary action name, with a
word boundary after it. -/
def primaryCandidate (primaryLower : List Char) (item : CatalogItem) :
    Option PotentialMatch :=
  let itemLower := lower item.name
  if primaryLower = itemLower ∨
      List.isPrefixOf (itemLower ++ [' ']) primaryLower then
    let endIndex := itemLower.length
    let afterChar :=
      if primaryLower.length ≤ endIndex then ' '
      else primaryLower.getD endIndex ' '
    if wordBoundary afterChar then
      some { startIndex := 0, endIndex := endIndex, uuid := item.uuid,
             itemName := item.name, itemType := item.itemType,
             nameLength := item.name.length }
    else none
  else none

/-- The full per-item scan (main.js 5738–5775): the primary candidate, then
every word-bounded occurrence, skipped entirely if this item already has a
match at index 0. -/
def scanItem (descLower primaryLower : List Char)
    (acc : List PotentialMatch) (item : CatalogItem) :
    List PotentialMatch :=
  let acc1 :=
    match primaryCandidate primaryLower item with
    | some m => acc ++ [m]
    | none => acc
  let itemLower := lower item.name
  (occurrencePositions itemLower descLower).foldl (fun a i =>
    let endIndex := i + itemLower.length
    let beforeChar := if i = 0 then ' ' else descLower.getD (i - 1) ' '
    let afterChar :=
      if endIndex = descLower.length then ' ' else descLower.getD endIndex ' '
    if wordBoundary beforeChar ∧ wordBoundary afterChar then
      if a.any (fun pm => pm.uuid = item.uuid ∧ pm.startIndex = 0) then a
      else a ++ [{ startIndex := i, endIndex := endIndex, uuid := item.uuid,
                   itemName := item.name, itemType := item.itemType,
                   nameLength := item.name.length }]
    else a) acc1

/-- Candidate scan over the whole master list. -/
def candidateScan (masterList : List CatalogItem)
    (cleanedDescription : List Char) : List PotentialMatch :=
  let descLower := lower cleanedDescription
  let primaryLower := lower (primaryActionName cleanedDescription)
  masterList.foldl (scanItem descLower primaryLower) []

/-- Model of `/\(Rank \d+\)/i.test(s)` (main.js 5782). -/
def hasRankMarker : List Char → Bool
  | [] => false
  | c :: t =>
    (if List.isPrefixOf (lc "(rank ") (lower (c :: t)) then
      let r := (c :: t).drop 6
      let ds := r.takeWhile Char.isDigit
      decide (ds ≠ []) && decide ((r.drop ds.length).head? = some ')')
    else false) || hasRankMarker t

/-- The overlap-resolution comparator (main.js 5783–5799): index-0 matches
first, then (under a rank marker) spells before same-named non-spells, then
longer names, then earlier start. -/
def overlapCmp (rankFlag : Bool) (a b : PotentialMatch) : Int :=
  if a.startIndex = 0 ∧ b.startIndex ≠ 0 then -1
  else if a.startIndex ≠ 0 ∧ b.startIndex = 0 then 1
  else if rankFlag ∧ lower a.itemName = lower b.itemName ∧
      a.itemType = lc "spell" ∧ b.itemType ≠ lc "spell" then -1
  else if rankFlag ∧ lower a.itemName = lower b.itemName ∧
      a.itemType ≠ lc "spell" ∧ b.itemType = lc "spell" then 1
  else if a.nameLength ≠ b.nameLength then
    (b.nameLength : Int) - (a.nameLength : Int)
  else (a.startIndex : Int) - (b.startIndex : Int)

/-- Is any index of `[s, e)` already covered (main.js 5803–5808)? -/
def spanCovered (covered : List Nat) (s e : Nat) : Bool :=
  ((List.range (e - s)).map (· + s)).any (fun i => decide (i ∈ covered))

/-- One step of the greedy overlap walk (main.js 5801–5818). -/
def resolveStep (st : List PotentialMatch × List Nat) (m : PotentialMatch) :
    List PotentialMatch × List Nat :=
  if spanCovered st.2 m.startIndex m.endIndex then st
  else
    (st.1 ++ [m],
      st.2 ++ (List.range (m.endIndex - m.startIndex)).map
        (· + m.startIndex))

/-- The confirmed matches of the greedy overlap resolution. -/
def resolveOverlaps (sorted : List PotentialMatch) : List PotentialMatch :=
  (sorted.foldl resolveStep ([], [])).1

/-- Steps 1–3 of the resolver: clean, scan the sorted master list, sort the
candidates, resolve overlaps. -/
def confirmedMatchesFor (items : List CatalogItem) (description : List Char) :
    List PotentialMatch :=
  let cleaned := cleanDescription description
  let master := masterListOf items
  let potential := candidateScan master cleaned
  let sorted :=
    jsSortBy (fun a b => decide (overlapCmp (hasRankMarker cleaned) a b < 0))
      potential
  resolveOverlaps sorted

/-- Two matches occupy disjoint character spans. -/
def spansDisjoint (a b : PotentialMatch) : Prop :=
  ∀ i, a.startIndex ≤ i → i < a.endIndex →
    ¬(b.startIndex ≤ i ∧ i < b.endIndex)

/-- Membership in the index list of a span. -/
theorem mem_span_iff (s e i : Nat) :
    i ∈ (List.range (e - s)).map (· + s) ↔ s ≤ i ∧ i < e := by
  simp only [List.mem_map, List.mem_range]
  constructor
  · rintro ⟨a, ha, rfl⟩; omega
  · intro h; exact ⟨i - s, by omega, by omega⟩

/-- A span that passes the coverage check shares no index with the covered
set. -/
theorem spanCovered_false {covered : List Nat} {s e : Nat}
    (h : spanCovered covered s e = false) :
    ∀ i, s ≤ i → i < e → i ∉ covered := by
  intro i h1 h2 hmem
  have : ((List.range (e - s)).map (· + s)).any
      (fun i => decide (i ∈ covered)) = true := by
    rw [List.any_eq_true]
    exact ⟨i, (mem_span_iff s e i).2 ⟨h1, h2⟩, by simpa using hmem⟩
  rw [spanCovered] at h
  rw [h] at this
  exact Bool.false_ne_true this

/-- Invariant of the greedy walk: accepted matches are pairwise disjoint and
all their indices are covered. -/
def CoverInv (st : List PotentialMatch × List Nat) : Prop :=
  st.1.Pairwise spansDisjoint ∧
    ∀ m ∈ st.1, ∀ i, m.startIndex ≤ i → i < m.endIndex → i ∈ st.2

/-- One greedy step preserves the invariant. -/
theorem resolveStep_inv (st : List PotentialMatch × List Nat)
    (m : PotentialMatch) (h : CoverInv st) : CoverInv (resolveStep st m) := by
  unfold resolveStep
  split_ifs with hcov
  · exact h
  · have hfalse : spanCovered st.2 m.startIndex m.endIndex = false := by
      simpa using hcov
    constructor
    · rw [List.pairwise_append]
      refine ⟨h.1, List.pairwise_singleton _ _, ?_⟩
      intro p hp q hq
      simp only [List.mem_singleton] at hq
      subst hq
      intro i hi1 hi2 hmi
      exact spanCovered_false hfalse i hmi.1 hmi.2 (h.2 p hp i hi1 hi2)
    · intro p hp i hi1 hi2
      rcases List.mem_append.mp hp with h' | h'
      · exact List.mem_append.mpr (Or.inl (h.2 p h' i hi1 hi2))
      · simp only [List.mem_singleton] at h'
        subst h'
        exact List.mem_append.mpr
          (Or.inr ((mem_span_iff _ _ _).2 ⟨hi1, hi2⟩))

/-- The greedy walk preserves the invariant along any candidate list. -/
theorem resolve_foldl_inv (l : List PotentialMatch)
    (st : List PotentialMatch × List Nat) (h : CoverInv st) :
    CoverInv (l.foldl resolveStep st) := by
  induction l generalizing st with
  | nil => exact h
  | cons x xs ih => exact ih _ (resolveStep_inv _ _ h)

/-- C7: for every catalog and description, the confirmed matches of overlap
resolution have pairwise-disjoint character spans (and, being a pure
function of its input, the resolution is deterministic); on the catalog
`Strike`/`Power Strike` with description `"Power Strike the goblin"`, only
`Power Strike` is matched — the embedded `Strike` is not. -/
theorem C7_overlap_resolution_disjoint :
    (∀ (items : List CatalogItem) (description : List Char),
        (confirmedMatchesFor items description).Pairwise spansDisjoint) ∧
      (confirmedMatchesFor
          [⟨lc "Strike", lc "action", 1⟩, ⟨lc "Power Strike", lc "action", 2⟩]
          (lc "Power Strike the goblin")).map (fun m => m.itemName) =
        [lc "Power Strike"] := by
  constructor
  · intro items description
    have h := resolve_foldl_inv
      (jsSortBy
        (fun a b =>
          decide (overlapCmp (hasRankMarker (cleanDescription description))
            a b < 0))
        (candidateScan (masterListOf items) (cleanDescription description)))
      ([], []) ⟨List.Pairwise.nil, by simp⟩
    exact h.1
  · decide

/- ### Flurry of Blows special case (main.js 5649–5735)

Average damages are represented doubled (`2 × value`, an integer, since
every JS value here is a multiple of ½): `dice*(die+1)/2` becomes
`dice*(die+1)` and flat modifiers are doubled, which preserves every
comparison the code makes. -/

/-- One strike of `gameState.self.strikes` as the flurry branch reads it. -/
structure StrikeData where
  label : List Char
  traits : List (List Char)
  bonuses : List Char
  damage : List Char
  identifier : List Char
  deriving DecidableEq, Repr

/-- Model of `parseBaseBonus` (main.js 5692–5697): `parseInt` of the trimmed text
before the first `/`, `-99` when unparseable. -/
def parseBaseBonus (bonusString : List Char) : Int :=
  let firstBonus := trim (bonusString.takeWhile (· ≠ '/'))
  match jsParseInt firstBonus with
  | some n => n
  | none => -99

/-- The `/(\d+)d(\d+)/g` scan of `estimateAverageDamage` (main.js
5660–5668), doubled: each die term contributes `dice*(die+1)`. -/
def diceScanAux : Nat → List Char → Int
  | 0, _ => 0
  | _, [] => 0
  | fuel + 1, c :: t =>
    if c.isDigit then
      let ds := (c :: t).takeWhile Char.isDigit
      match (c :: t).drop ds.length with
      | 'd' :: r2 =>
        let es := r2.takeWhile Char.isDigit
        if es = [] then diceScanAux fuel t
        else
          (if 0 < digitsVal es then
            ((digitsVal ds : Int) * ((digitsVal es : Int) + 1))
          else 0) + diceScanAux fuel (r2.drop es.length)
      | _ => diceScanAux fuel t
    else diceScanAux fuel t

/-- The `/([+-]\s*\d+)(?!d)/g` scan (main.js 5670–5676), doubled: each flat
modifier contributes twice its signed value.  When the digit run is followed
by `d`, the regex backtracks one digit; a single digit before `d` cannot
match. -/
def flatScanAux : Nat → List Char → Int
  | 0, _ => 0
  | _, [] => 0
  | fuel + 1, c :: t =>
    if c = '+' ∨ c = '-' then
      let w := t.dropWhile isWs
      let ds := w.takeWhile Char.isDigit
      if ds = [] then flatScanAux fuel t
      else
        let sign : Int := if c = '-' then -1 else 1
        let afterAll := w.drop ds.length
        if afterAll.head? = some 'd' then
          if 2 ≤ ds.length then
            sign * (digitsVal ds.dropLast : Int) * 2 +
              flatScanAux fuel (w.drop (ds.length - 1))
          else flatScanAux fuel t
        else sign * (digitsVal ds : Int) * 2 + flatScanAux fuel afterAll
    else flatScanAux fuel t

/-- Model of `/^[+-]?\s*\d+$/.test(s)` (main.js 5678). -/
def isPureSignedNumber (s : List Char) : Bool :=
  let u :=
    match s with
    | c :: t => if c = '+' ∨ c = '-' then t else s
    | [] => s
  let u2 := u.dropWhile isWs
  decide (u2 ≠ []) && u2.all Char.isDigit

/-- Model of `estimateAverageDamage` (main.js 5655–5687), doubled: dice average plus
flat modifiers, a pure-number fallback when both scans found nothing, and a
clamp to 0 for non-positive results.  An empty formula is falsy and yields
0. -/
def estimateAverageDamageTwice (formula : List Char) : Int :=
  if formula = [] then 0
  else
    let avg := diceScanAux formula.length formula +
      flatScanAux formula.length formula
    let avg2 :=
      if avg = 0 ∧ isPureSignedNumber (trim formula) then
        2 * ((jsParseInt (formula.filter (fun c => ¬ isWs c))).getD 0)
      else avg
    if 0 < avg2 then avg2 else 0

/-- The eligibility filter of the flurry branch (main.js 5652): strikes
with the `unarmed` or `monk` trait. -/
def eligibleFlurryStrike (s : StrikeData) : Bool :=
  decide (lc "unarmed" ∈ s.traits) || decide (lc "monk" ∈ s.traits)

/-- The flurry sort comparator (main.js 5690–5712): higher base attack bonus
first, ties broken by higher estimated average damage. -/
def flurryCmp (a b : StrikeData) : Int :=
  if parseBaseBonus a.bonuses ≠ parseBaseBonus b.bonuses then
    parseBaseBonus b.bonuses - parseBaseBonus a.bonuses
  else
    estimateAverageDamageTwice b.damage - estimateAverageDamageTwice a.damage

/-- Model of `eligibleStrikes.sort(...)[0]` (main.js 5690–5714). -/
def bestEligibleStrike (strikes : List StrikeData) : Option StrikeData :=
  (jsSortBy (fun a b => decide (flurryCmp a b < 0))
    (strikes.filter eligibleFlurryStrike)).head?

/-- Model of `array.filter((v, i, a) => a.indexOf(v) === i)`: keep first
occurrences. -/
def jsDedupKeepFirst (l : List (List Char)) : List (List Char) :=
  l.foldl (fun acc v => if v ∈ acc then acc else acc ++ [v]) []

/-- The fields the flurry branch sets on its early-returned result
(main.js 5716–5730). -/
structure FlurryStrikeResult where
  isStrikeSuggestion : Bool
  strikeNameForButton : List Char
  strikeIdentifierForButton : List Char
  actualActionCost : JsCost
  costSource : List Char
  traits : List (List Char)
  modifiedDescription : List Char
  isCombo : Bool
  deriving DecidableEq, Repr

/-- Building the direct Strike result for Flurry of Blows (main.js
5716–5730): fixed cost `Actions(1)`, merged de-duplicated traits with
`attack` and `flurry` added. -/
def mkFlurryResult (s : StrikeData) : FlurryStrikeResult :=
  { isStrikeSuggestion := true
    strikeNameForButton := s.label
    strikeIdentifierForButton := s.identifier
    actualActionCost := .num 1
    costSource := lc "Flurry of Blows Rule"
    traits := jsDedupKeepFirst ([lc "attack", lc "flurry"] ++ s.traits)
    modifiedDescription := lc "Flurry of Blows (using " ++ s.label ++ [')']
    isCombo := false }

/-- The two ways the resolution of a suggestion can go after cleaning: the
flurry special case returns early with a direct Strike result; everything
else runs the generic matching of steps 1–3. -/
inductive IdentifyPhase1 where
  | flurryStrike (res : FlurryStrikeResult)
  | generic (confirmedMatches : List PotentialMatch)
  deriving DecidableEq, Repr

/-- Model of `identifySuggestionTypeAndCost` up to its match-resolution phase
(main.js 5523–5735 and 5777–5818): the flurry bypass (falling through to
generic matching when no eligible strike exists), else the generic scan. -/
def identifyPhase1 (gameStateStrikes : List StrikeData)
    (items : List CatalogItem) (description : List Char) : IdentifyPhase1 :=
  let cleaned := cleanDescription description
  if lower (primaryActionName cleaned) = lc "flurry of blows" then
    match bestEligibleStrike gameStateStrikes with
    | some s => .flurryStrike (mkFlurryResult s)
    | none => .generic (confirmedMatchesFor items description)
  else .generic (confirmedMatchesFor items description)

/-- Membership through `jsInsert`. -/
theorem mem_jsInsert {α : Type} (lt : α → α → Bool) (x y : α)
    (l : List α) : y ∈ jsInsert lt x l ↔ y = x ∨ y ∈ l := by
  induction l with
  | nil => simp [jsInsert]
  | cons z zs ih =>
    unfold jsInsert
    split_ifs with h
    · simp only [List.mem_cons, ih]
      tauto
    · simp only [List.mem_cons]
      try tauto

/-- Lemma: `jsSortBy` permutes membership. -/
theorem mem_jsSortBy {α : Type} (lt : α → α → Bool) (y : α) (l : List α) :
    y ∈ jsSortBy lt l ↔ y ∈ l := by
  induction l with
  | nil => simp [jsSortBy]
  | cons z zs ih =>
    rw [show jsSortBy lt (z :: zs) = jsInsert lt z (jsSortBy lt zs) from rfl,
      mem_jsInsert]
    simp [ih]

/-- For an asymmetric, negatively transitive `lt`, `jsInsert` preserves
sortedness (`Pairwise (fun a b => lt b a = false)`). -/
theorem pairwise_jsInsert {α : Type} (lt : α → α → Bool)
    (hA : ∀ a b, lt a b = true → lt b a = false)
    (hT : ∀ a b c, lt b a = false → lt c b = false → lt c a = false)
    (x : α) (l : List α) (h : l.Pairwise (fun a b => lt b a = false)) :
    (jsInsert lt x l).Pairwise (fun a b => lt b a = false) := by
  induction l with
  | nil => simp [jsInsert]
  | cons y ys ih =>
    rw [List.pairwise_cons] at h
    unfold jsInsert
    split_ifs with hlt
    · rw [List.pairwise_cons]
      refine ⟨?_, ih h.2⟩
      intro z hz
      rcases (mem_jsInsert lt x z ys).1 hz with rfl | hz'
      · exact hA _ _ hlt
      · exact h.1 z hz'
    · rw [List.pairwise_cons]
      have hyx : lt y x = false := by simpa using hlt
      refine ⟨?_, List.pairwise_cons.mpr h⟩
      intro z hz
      rcases List.mem_cons.mp hz with rfl | hz'
      · exact hyx
      · exact hT x y z hyx (h.1 z hz')

/-- Lemma: `jsSortBy` sorts, for an asymmetric, negatively transitive `lt`. -/
theorem pairwise_jsSortBy {α : Type} (lt : α → α → Bool)
    (hA : ∀ a b, lt a b = true → lt b a = false)
    (hT : ∀ a b c, lt b a = false → lt c b = false → lt c a = false)
    (l : List α) :
    (jsSortBy lt l).Pairwise (fun a b => lt b a = false) := by
  induction l with
  | nil => simp [jsSortBy]
  | cons z zs ih =>
    exact pairwise_jsInsert lt hA hT z (jsSortBy lt zs) ih

/-- The flurry comparator is antisymmetric. -/
theorem flurryCmp_neg (a b : StrikeData) :
    flurryCmp b a = - flurryCmp a b := by
  by_cases h : parseBaseBonus a.bonuses = parseBaseBonus b.bonuses <;>
    simp [flurryCmp, h, Ne.symm]

/-- Asymmetry of the flurry order. -/
theorem flurryLt_asymm (a b : StrikeData)
    (h : decide (flurryCmp a b < 0) = true) :
    decide (flurryCmp b a < 0) = false := by
  have hn := flurryCmp_neg a b
  simp only [decide_eq_true_eq] at h
  simp only [decide_eq_false_iff_not, not_lt]
  omega

/-- Negative transitivity of the flurry order. -/
theorem flurryLt_negTrans (a b c : StrikeData)
    (h1 : decide (flurryCmp b a < 0) = false)
    (h2 : decide (flurryCmp c b < 0) = false) :
    decide (flurryCmp c a < 0) = false := by
  simp only [decide_eq_false_iff_not, not_lt] at *
  unfold flurryCmp at *
  split_ifs at * <;> omega

/-- Elements survive the keep-first de-duplication fold. -/
theorem mem_foldl_dedup (l : List (List Char)) (acc : List (List Char))
    (tr : List Char) (h : tr ∈ acc ∨ tr ∈ l) :
    tr ∈ l.foldl (fun acc v => if v ∈ acc then acc else acc ++ [v]) acc := by
  induction l generalizing acc with
  | nil =>
    rcases h with h | h
    · exact h
    · simp at h
  | cons v vs ih =>
    simp only [List.foldl_cons]
    rcases h with h | h
    · refine ih _ (Or.inl ?_)
      split_ifs with hv
      · exact h
      · exact List.mem_append.mpr (Or.inl h)
    · rcases List.mem_cons.mp h with rfl | h'
      · refine ih _ (Or.inl ?_)
        split_ifs with hv
        · exact hv
        · exact List.mem_append.mpr (Or.inr (by simp))
      · exact ih _ (Or.inr h')

/-- C9: when the cleaned description leads with `Flurry of Blows` and some
strike carries the `unarmed` or `monk` trait, resolution bypasses generic
matching and returns early with a direct Strike result built from an
eligible strike that maximises base attack bonus (ties broken by the
estimated average damage), costed at one action, with `attack` and `flurry`
merged into the strike's traits. -/
theorem C9_flurry_bypass (strikes : List StrikeData)
    (items : List CatalogItem) (description : List Char)
    (hname : lower (primaryActionName (cleanDescription description)) =
      lc "flurry of blows")
    (s : StrikeData) (hbest : bestEligibleStrike strikes = some s) :
    identifyPhase1 strikes items description =
        .flurryStrike (mkFlurryResult s) ∧
      s ∈ strikes ∧ eligibleFlurryStrike s = true ∧
      (∀ t ∈ strikes, eligibleFlurryStrike t = true →
        parseBaseBonus t.bonuses < parseBaseBonus s.bonuses ∨
          (parseBaseBonus t.bonuses = parseBaseBonus s.bonuses ∧
            estimateAverageDamageTwice t.damage ≤
              estimateAverageDamageTwice s.damage)) ∧
      (mkFlurryResult s).actualActionCost = .num 1 ∧
      lc "attack" ∈ (mkFlurryResult s).traits ∧
      lc "flurry" ∈ (mkFlurryResult s).traits ∧
      (∀ tr ∈ s.traits, tr ∈ (mkFlurryResult s).traits) := by
  have hsorted := pairwise_jsSortBy (fun a b => decide (flurryCmp a b < 0))
    flurryLt_asymm flurryLt_negTrans (strikes.filter eligibleFlurryStrike)
  have hmemS : s ∈ jsSortBy (fun a b => decide (flurryCmp a b < 0))
      (strikes.filter eligibleFlurryStrike) := by
    unfold bestEligibleStrike at hbest
    cases hl : jsSortBy (fun a b => decide (flurryCmp a b < 0))
        (strikes.filter eligibleFlurryStrike) with
    | nil => rw [hl] at hbest; simp at hbest
    | cons z zs =>
      rw [hl] at hbest
      simp only [List.head?_cons, Option.some.injEq] at hbest
      rw [hbest] at hl ⊢
      simp
  have hfil : s ∈ strikes.filter eligibleFlurryStrike :=
    (mem_jsSortBy _ _ _).1 hmemS
  have hmax : ∀ t ∈ strikes, eligibleFlurryStrike t = true →
      decide (flurryCmp t s < 0) = false ∨ t = s := by
    intro t ht helig
    have htin : t ∈ jsSortBy (fun a b => decide (flurryCmp a b < 0))
        (strikes.filter eligibleFlurryStrike) :=
      (mem_jsSortBy _ _ _).2 (List.mem_filter.mpr ⟨ht, helig⟩)
    unfold bestEligibleStrike at hbest
    cases hl : jsSortBy (fun a b => decide (flurryCmp a b < 0))
        (strikes.filter eligibleFlurryStrike) with
    | nil => rw [hl] at htin; simp at htin
    | cons z zs =>
      rw [hl] at hbest htin hsorted
      simp only [List.head?_cons, Option.some.injEq] at hbest
      subst hbest
      rcases List.mem_cons.mp htin with rfl | ht'
      · exact Or.inr rfl
      · exact Or.inl ((List.pairwise_cons.mp hsorted).1 t ht')
  refine ⟨?_, (List.mem_filter.mp hfil).1, (List.mem_filter.mp hfil).2,
    ?_, rfl, ?_, ?_, ?_⟩
  · unfold identifyPhase1
    rw [if_pos hname, hbest]
  · intro t ht helig
    rcases hmax t ht helig with hlt | rfl
    · simp only [decide_eq_false_iff_not, not_lt] at hlt
      unfold flurryCmp at hlt
      by_cases heq : parseBaseBonus t.bonuses = parseBaseBonus s.bonuses
      · rw [if_neg (by simp [heq])] at hlt
        exact Or.inr ⟨heq, by omega⟩
      · rw [if_pos heq] at hlt
        exact Or.inl (by omega)
    · exact Or.inr ⟨rfl, le_refl _⟩
  · simp only [mkFlurryResult]
    exact mem_foldl_dedup _ _ _ (Or.inr (by simp))
  · simp only [mkFlurryResult]
    exact mem_foldl_dedup _ _ _ (Or.inr (by simp))
  · intro tr htr
    simp only [mkFlurryResult]
    exact mem_foldl_dedup _ _ _ (Or.inr (by simp [htr]))

/-- An unarmed agile fist strike (concrete input for the flurry witness). -/
def fistStrike : StrikeData :=
  ⟨lc "Fist", [lc "agile", lc "unarmed"], lc "+21 / +17 / +13", lc "2d8+5",
    lc "fist"⟩

/-- An unarmed claw strike with a lower attack bonus. -/
def clawStrike : StrikeData :=
  ⟨lc "Claw", [lc "unarmed"], lc "+19", lc "3d10+9", lc "claw"⟩

/-- Witness for C9: with the fist (+21) and claw (+19) strikes, a
`Flurry of Blows, Goblin` suggestion resolves early to the fist strike. -/
theorem C9_flurry_bypass_witness :
    lower (primaryActionName
        (cleanDescription (lc "Flurry of Blows, Goblin"))) =
      lc "flurry of blows" ∧
    bestEligibleStrike [clawStrike, fistStrike] = some fistStrike ∧
    identifyPhase1 [clawStrike, fistStrike] []
        (lc "Flurry of Blows, Goblin") =
      .flurryStrike (mkFlurryResult fistStrike) :=
  ⟨by decide, by decide,
    (C9_flurry_bypass [clawStrike, fistStrike] []
      (lc "Flurry of Blows, Goblin") (by decide) fistStrike (by decide)).1⟩

/- ### Prerequisite validator (`requestNextAISuggestion`, main.js
2459–2598) -/

/-- One entry of `turnState.successfulStrikesThisRound`. -/
structure StrikeEvent where
  targetName : Option (List Char)
  strikeName : Option (List Char)
  deriving DecidableEq, Repr

/-- A condition on a target, with the actor that applied it. -/
structure TargetCondition where
  name : List Char
  sourceActorId : Option (List Char)
  deriving DecidableEq, Repr

/-- One entry of `gameState.targets`. -/
structure TargetData where
  name : Option (List Char)
  conditionsEffects : List TargetCondition
  deriving DecidableEq, Repr

/-- The immutable snapshots the prerequisite rules read. -/
structure PrereqEvidence where
  successfulStrikesThisRound : List StrikeEvent
  recentEvents : List (List Char)
  targets : List TargetData
  actorName : List Char
  actorId : List Char
  deriving DecidableEq, Repr

/-- The target extraction `/kw\s*([^()]+)/i` where `kw` is
`rend,`/`grab,`/`trip,`/`shove,` (main.js 2465, 2492, 2538, 2569): at the
first occurrence of the keyword whose continuation matches, the captured
text up to the next parenthesis, trimmed (as the code then trims it). -/
def commaTargetAux (kw : List Char) : List Char → Option (List Char)
  | [] => none
  | c :: t =>
    if List.isPrefixOf kw (lower (c :: t)) then
      match (c :: t).drop kw.length with
      | [] => commaTargetAux kw t
      | r :: rest =>
        if r = '(' ∨ r = ')' then commaTargetAux kw t
        else some (trim ((r :: rest).takeWhile
          (fun x => decide (x ≠ '(' ∧ x ≠ ')'))))
    else commaTargetAux kw t

/-- The trimmed capture of the keyword-comma target pattern. -/
def commaTarget (kw desc : List Char) : Option (List Char) :=
  commaTargetAux kw desc

/-- Model of `^actor:.*->\s+(Success|CriticalSuccess).*\(plus X\)/i` applied to one
recent-event string (main.js 2503, 2547, 2578); event strings are
single-line chat summaries. -/
def arrowSuccessRider (needle : List Char) : List Char → Bool
  | [] => false
  | c :: t =>
    (match c, t with
     | '-', '>' :: r =>
       let w := r.takeWhile isWs
       if w = [] then false
       else
         let r2 := r.drop w.length
         (List.isPrefixOf (lc "success") r2 &&
            containsSeq needle (r2.drop 7)) ||
         (List.isPrefixOf (lc "criticalsuccess") r2 &&
            containsSeq needle (r2.drop 15))
     | _, _ => false) ||
    (match t with
     | [] => false
     | _ => arrowSuccessRider needle t)

/-- The full event test: actor-name prefix, then a successful strike with
the given rider. -/
def successWithRider (actorName plusNeedle ev : List Char) : Bool :=
  let e := lower ev
  List.isPrefixOf (lower actorName ++ [':']) e &&
    arrowSuccessRider (lower plusNeedle) (e.drop (actorName.length + 1))

/-- Rend's evidence: successful strikes against the named target whose
strike name includes `claw` (main.js 2470–2476). -/
def rendStrikeCount (ev : PrereqEvidence) (rendTargetName : List Char) :
    Nat :=
  (ev.successfulStrikesThisRound.filter (fun st =>
    (match st.targetName with
     | some n => decide (lower n = lower rendTargetName)
     | none => false) &&
    (match st.strikeName with
     | some n => containsSeq (lc "claw") (lower n)
     | none => false))).length

/-- Grab's second requirement: the named target is already grabbed or
restrained by this actor (main.js 2515–2519). -/
def grabbingTarget (ev : PrereqEvidence) (tgt : List Char) : Bool :=
  match ev.targets.find? (fun t =>
      match t.name with
      | some n => decide (lower n = lower tgt)
      | none => false) with
  | some td =>
    td.conditionsEffects.any (fun cond =>
      (decide (lower cond.name = lc "grabbed") ||
        decide (lower cond.name = lc "restrained")) &&
      (match cond.sourceActorId with
       | some i => decide (i = ev.actorId)
       | none => false))
  | none => false

/-- What happens to the suggestion after the prerequisite block:
`proceed` presents it; `rejectRetry` silently re-requests a replacement
suggestion. -/
inductive PrereqOutcome where
  | proceed
  | rejectRetry
  deriving DecidableEq, Repr

/-- The prerequisite validation block (main.js 2459–2598): dispatch on the
primary action name; for each of Rend/Grab/Trip/Shove, parse the
`name, target` pattern out of the description — on success check the
evidence (rejecting into a retry on failure), and when no target parses,
log and skip the check entirely, proceeding as if validated. -/
def prereqStep (primaryActionName : Option (List Char))
    (description : List Char) (ev : PrereqEvidence) : PrereqOutcome :=
  let nmLower := primaryActionName.map lower
  if nmLower = some (lc "rend") then
    match commaTarget (lc "rend,") description with
    | some t =>
      if t ≠ [] then
        if 2 ≤ rendStrikeCount ev t then .proceed else .rejectRetry
      else .proceed
    | none => .proceed
  else if nmLower = some (lc "grab") then
    match commaTarget (lc "grab,") description with
    | some t =>
      if t ≠ [] then
        if ev.recentEvents.any
            (successWithRider ev.actorName (lc "(plus Grab)")) ||
            grabbingTarget ev t then .proceed
        else .rejectRetry
      else .proceed
    | none => .proceed
  else if nmLower = some (lc "trip") then
    match commaTarget (lc "trip,") description with
    | some t =>
      if t ≠ [] then
        if ev.recentEvents.any
            (successWithRider ev.actorName (lc "(plus Knockdown)")) then
          .proceed
        else .rejectRetry
      else .proceed
    | none => .proceed
  else if nmLower = some (lc "shove") then
    match commaTarget (lc "shove,") description with
    | some t =>
      if t ≠ [] then
        if ev.recentEvents.any
            (successWithRider ev.actorName (lc "(plus Push)")) then
          .proceed
        else .rejectRetry
      else .proceed
    | none => .proceed
  else .proceed

/-- C10: for a Rend/Grab/Trip/Shove suggestion whose description does not
yield a comma-followed target name (the `name, target` pattern is absent or
captures only blanks), the prerequisite check is skipped entirely and the
suggestion proceeds as if validated, whatever the evidence says. -/
theorem C10_prereq_skipped_without_target (nm description : List Char)
    (ev : PrereqEvidence)
    (hn : lower nm = lc "rend" ∨ lower nm = lc "grab" ∨
      lower nm = lc "trip" ∨ lower nm = lc "shove")
    (hskip : commaTarget (lower nm ++ [',']) description = none ∨
      commaTarget (lower nm ++ [',']) description = some []) :
    prereqStep (some nm) description ev = .proceed := by
  unfold prereqStep
  simp only [Option.map_some']
  rcases hn with h | h | h | h
  · simp only [h]
    rw [if_pos trivial,
      show (lc "rend,") = lower nm ++ [','] from by rw [h]; decide]
    rcases hskip with hs | hs <;> rw [hs] <;> simp
  · simp only [h]
    rw [if_neg (by decide), if_pos trivial,
      show (lc "grab,") = lower nm ++ [','] from by rw [h]; decide]
    rcases hskip with hs | hs <;> rw [hs] <;> simp
  · simp only [h]
    rw [if_neg (by decide), if_neg (by decide), if_pos trivial,
      show (lc "trip,") = lower nm ++ [','] from by rw [h]; decide]
    rcases hskip with hs | hs <;> rw [hs] <;> simp
  · simp only [h]
    rw [if_neg (by decide), if_neg (by decide), if_neg (by decide),
      if_pos trivial,
      show (lc "shove,") = lower nm ++ [','] from by rw [h]; decide]
    rcases hskip with hs | hs <;> rw [hs] <;> simp

/-- Witness for C10: `Rend the goblin` (no comma pattern) proceeds with no
evidence at all. -/
theorem C10_prereq_skipped_without_target_witness :
    prereqStep (some (lc "Rend")) (lc "Rend the goblin")
      ⟨[], [], [], lc "Annis Hag", lc "actor1"⟩ = .proceed :=
  C10_prereq_skipped_without_target (lc "Rend") (lc "Rend the goblin")
    ⟨[], [], [], lc "Annis Hag", lc "actor1"⟩ (Or.inl (by decide))
    (Or.inl (by decide))
